import Mathlib

/-!
A shallow embedding of the ledger/decision engine of the
ChatGPT-Micro-Cap-Experiment repository, covering

- scripts/eod_repo.py        (the EOD ledger upsert, stop-loss evaluation),
- scripts/build_daily_report.py  (valuation fields, snapshot diff, movers,
                                  risk flags, the order-suggestion engine).

Modelling conventions:

- Python floats are modelled as rationals; a possibly-NaN value is an
  Option ℚ with none standing for NaN (pandas notna/isna become isSome/isNone).
- Calendar dates are integers (a day count); the scripts only use equality,
  ordering and whole-day differences of dates, all of which the integer
  model captures exactly.
- pandas sort_values is modelled by a stable sort (insertion sort); rows of a
  DataFrame are lists of records whose fields are the columns the code reads.
- The Python string methods upper/strip/endswith and the slice s[:-1] are
  embedded as character-list functions so that they compute by kernel
  reduction.
- The Python float(str) parser is an abstract parameter parseFloat returning
  none exactly when float(...) raises; a parse that yields the float NaN
  behaves, in every use below, identically to a failed parse (comparisons
  with NaN are false and arithmetic on NaN is NaN), so none covers it too.
-/

/-- Embedding of the Python str.upper method (character-wise upper-casing). -/
def pyUpper (s : String) : String := String.mk (s.data.map Char.toUpper)

/-- Embedding of the Python str.strip method (drop surrounding whitespace). -/
def pyStrip (s : String) : String :=
  String.mk (((s.data.dropWhile Char.isWhitespace).reverse.dropWhile Char.isWhitespace).reverse)

/-- Embedding of the Python str.endswith method. -/
def pyEndsWith (s suf : String) : Bool := suf.data.isSuffixOf s.data

/-- Embedding of the Python slice s[:-1] (drop the final character). -/
def pyDropLast (s : String) : String := String.mk s.data.dropLast

/-- Python round(x, ndigits=0): banker's rounding, half to even. -/
def roundHalfEven (q : ℚ) : Int :=
  if q - ⌊q⌋ = 1 / 2 then (if ⌊q⌋ % 2 = 0 then ⌊q⌋ else ⌊q⌋ + 1) else round q

/-- Python round(x, 2) on the rational model of floats. -/
def pyRound2 (q : ℚ) : ℚ := (roundHalfEven (q * 100) : ℚ) / 100

/-! ### The EOD ledger (scripts/eod_repo.py, upsert_eod)

One row of eod/eod_log.csv, with the columns fixed by the cols list at the
top of upsert_eod. day_index and day_tag are recomputed for the whole ledger
on every write; the return columns are NaN-able. -/

/-- One row of the ledger table eod/eod_log.csv. -/
structure LedgerRow where
  date : Int
  day_index : Int
  day_tag : String
  portfolio_name : String
  cash_SEK : ℚ
  total_value_SEK : Option ℚ
  benchmark_SEK : Option ℚ
  return_total_pct : Option ℚ
  return_vs_bm_pct : Option ℚ
  notes : String
deriving DecidableEq

/-- The row dict built in eod_repo.main and handed to upsert_eod: exactly the
keys date, portfolio_name, cash_SEK, total_value_SEK, benchmark_SEK, notes. -/
structure EodInput where
  date : Int
  portfolio_name : String
  cash_SEK : ℚ
  total_value_SEK : Option ℚ
  benchmark_SEK : Option ℚ
  notes : String
deriving DecidableEq

/-- The update branch of upsert_eod: for k, v in row.items(): eod.at[idx, k] = v.
Only the keys present in the row dict are overwritten; the derived columns of
the matched row are left for the global recompute. -/
def setFields (x : LedgerRow) (r : EodInput) : LedgerRow :=
  { x with
    date := r.date, portfolio_name := r.portfolio_name, cash_SEK := r.cash_SEK,
    total_value_SEK := r.total_value_SEK, benchmark_SEK := r.benchmark_SEK,
    notes := r.notes }

/-- The append branch of upsert_eod: pd.concat([eod, pd.DataFrame([row])]).
Columns absent from the row dict are filled with NaN by pandas; day_index and
day_tag are recomputed for the whole (necessarily non-empty) ledger before the
result is ever read, so their placeholder values below are unobservable. -/
def newRow (r : EodInput) : LedgerRow :=
  { date := r.date, day_index := 0, day_tag := "",
    portfolio_name := r.portfolio_name, cash_SEK := r.cash_SEK,
    total_value_SEK := r.total_value_SEK, benchmark_SEK := r.benchmark_SEK,
    return_total_pct := none, return_vs_bm_pct := none, notes := r.notes }

/-- idx = eod.index[mask][0]: the row written is the first row whose date
matches. -/
def updateFirst : List LedgerRow → EodInput → List LedgerRow
  | [], _ => []
  | x :: xs, r => if x.date = r.date then setFields x r :: xs else x :: updateFirst xs r

/-- The Boolean date-match predicate of the upsert mask
(eod.date.dt.date == row.date). -/
def dmatch (d : Int) (x : LedgerRow) : Bool := x.date == d

/-- mask = (eod.date.dt.date == row.date); if mask.any() update in place, else
append. -/
def upsertRows (l : List LedgerRow) (r : EodInput) : List LedgerRow :=
  if l.any (dmatch r.date) then updateFirst l r else l ++ [newRow r]

/-- The sort key of eod.sort_values("date"). -/
def dateLE (a b : LedgerRow) : Prop := a.date ≤ b.date

instance : DecidableRel dateLE := fun a b => Int.decLe a.date b.date

instance : IsTotal LedgerRow dateLE := ⟨fun a b => Int.le_total a.date b.date⟩

instance : IsTrans LedgerRow dateLE := ⟨fun _ _ _ h1 h2 => le_trans h1 h2⟩

/-- The inner helper pct(a, b) of upsert_eod: NaN unless both arguments are
defined and the base is non-zero, else (a/b - 1) * 100. -/
def pctRet (a b : Option ℚ) : Option ℚ :=
  match a, b with
  | some a, some b => if b = 0 then none else some ((a / b - 1) * 100)
  | _, _ => none

/-- NaN-propagating subtraction of two possibly-NaN floats. -/
def optSub : Option ℚ → Option ℚ → Option ℚ
  | some a, some b => some (a - b)
  | _, _ => none

/-- base_bm = eod.benchmark_SEK.dropna().iloc[0] if any, else NaN. -/
def firstBM : List LedgerRow → Option ℚ
  | [] => none
  | x :: xs =>
    match x.benchmark_SEK with
    | some b => some b
    | none => firstBM xs

/-- day_tag = f-string "Dag {day_index} – {date}"; the date is rendered by its
integer day number in this model. -/
def dayTag (i : Int) (d : Int) : String := "Dag " ++ toString i ++ " – " ++ toString d

/-- The per-row part of the global recompute at the end of upsert_eod, with
base the date of the first (earliest) row, basePort its total value, and
baseBM the first defined benchmark value. When baseBM is NaN the Python code
does not assign the return_vs_bm_pct column at all, so the old value stays. -/
def recomputeRow (base : Int) (basePort baseBM : Option ℚ) (x : LedgerRow) : LedgerRow :=
  { x with
    day_index := x.date - base,
    day_tag := dayTag (x.date - base) x.date,
    return_total_pct := pctRet x.total_value_SEK basePort,
    return_vs_bm_pct :=
      match baseBM with
      | none => x.return_vs_bm_pct
      | some _ =>
        match x.benchmark_SEK with
        | none => none
        | some _ => optSub (pctRet x.total_value_SEK basePort) (pctRet x.benchmark_SEK baseBM) }

/-- The whole-ledger recompute of day_index, day_tag and the return columns,
run after the sort; skipped (trivially) on an empty ledger. -/
def recompute (l : List LedgerRow) : List LedgerRow :=
  match l with
  | [] => []
  | x :: xs => (x :: xs).map (recomputeRow x.date x.total_value_SEK (firstBM (x :: xs)))

/-- upsert_eod from scripts/eod_repo.py: upsert the row by date, re-sort the
ledger by date, recompute day indices and return series. -/
def upsert_eod (l : List LedgerRow) (r : EodInput) : List LedgerRow :=
  recompute (List.insertionSort dateLE (upsertRows l r))

/-- The fields of a ledger row that come directly from the written row dict. -/
def inputOf (x : LedgerRow) : EodInput :=
  { date := x.date, portfolio_name := x.portfolio_name, cash_SEK := x.cash_SEK,
    total_value_SEK := x.total_value_SEK, benchmark_SEK := x.benchmark_SEK,
    notes := x.notes }

/-- The ledger invariant of the spec: at most one row per calendar date. -/
def oneRowPerDate (l : List LedgerRow) : Prop :=
  l.Pairwise (fun a b => a.date ≠ b.date)

instance (l : List LedgerRow) : Decidable (oneRowPerDate l) :=
  inferInstanceAs (Decidable (l.Pairwise _))

/-! ### Stop-loss evaluation (eod_repo.stop_hit, build_daily_report._stop_hit
and _sl_distance_pct) -/

/-- stop_hit of scripts/eod_repo.py, identically _stop_hit of
scripts/build_daily_report.py. parseFloat stands for Python float(str); it is
none exactly when float raises and the except branch fires. -/
def stop_hit (parseFloat : String → Option ℚ) (price buy : Option ℚ) (sl_str : String) : Bool :=
  let sl := pyStrip sl_str
  match price, buy with
  | some price, some buy =>
    if pyEndsWith sl "%" then
      match parseFloat (pyDropLast sl) with
      | some x => decide (price ≤ (1 - x / 100) * buy)
      | none => false
    else
      match parseFloat sl with
      | some lvl => decide (price ≤ lvl)
      | none => false
  | _, _ => false

/-- _sl_distance_pct of scripts/build_daily_report.py. A stop level of exactly
zero, where the float division yields no finite value, is mapped to none; no
claim below depends on that corner. -/
def sl_distance_pct (parseFloat : String → Option ℚ) (price buy : Option ℚ)
    (sl_str : String) : Option ℚ :=
  let sl := pyStrip sl_str
  match price, buy with
  | some price, some buy =>
    if pyEndsWith sl "%" then
      match parseFloat (pyDropLast sl) with
      | some x =>
        if (1 - x / 100) * buy = 0 then none
        else some ((price / ((1 - x / 100) * buy) - 1) * 100)
      | none => none
    else
      match parseFloat sl with
      | some lvl => if lvl = 0 then none else some ((price / lvl - 1) * 100)
      | none => none
  | _, _ => none

/-- The malformed-rule predicate of the stop-loss fail-safe claim: the rule
string is neither a parseable percentage (a string ending in the percent sign
whose front parses) nor a parseable absolute number. -/
def slMalformed (parseFloat : String → Option ℚ) (sl_str : String) : Prop :=
  if pyEndsWith (pyStrip sl_str) "%" then parseFloat (pyDropLast (pyStrip sl_str)) = none
  else parseFloat (pyStrip sl_str) = none

/-! ### The daily decision engine (scripts/build_daily_report.py, main)

The engine consumes the merged holdings-with-prices table (with the valuation
columns Marknadsvärde, StopLossTriggad, SL_dist_pct already computed), the
watchlist snapshot of the day, the watchlist master log, and the EOD ledger.
The theorems below quantify over arbitrary such tables, which covers every
table the valuation step can produce. -/

/-- One row of the merged holdings table of build_daily_report.main, with the
columns the decision engine reads. -/
structure PositionRow where
  ticker : String
  antal : Option ℚ
  inkopskurs : Option ℚ
  stop_loss : String
  close_sek : Option ℚ
  marknadsvarde : ℚ
  stoploss_triggad : Bool
  sl_dist_pct : Option ℚ
deriving DecidableEq

/-- One row of the day's watchlist snapshot watchlist_eod_YYYYMMDD.csv. -/
structure WatchRow where
  ticker : String
  close_sek : Option ℚ
  in_portfolio : Bool
deriving DecidableEq

/-- One row of the watchlist master log watchlist_log.csv. -/
structure WatchLogRow where
  date : Int
  ticker : String
  close_sek : Option ℚ
deriving DecidableEq

/-- A mover tuple (ticker, pct, price, in_portfolio) of the daily report. -/
structure Mover where
  ticker : String
  pct : Option ℚ
  price : Option ℚ
  in_portfolio : Bool
deriving DecidableEq

/-- An order suggestion; the report renders each as a bracketed action line,
fully determined by these payloads. SELL echoes the raw stop-loss cell. -/
inductive OrderSug where
  | sell (ticker : String) (entry : ℚ) (sl : String)
  | buy (ticker : String) (size_pct entry sl : ℚ)
  | hold
deriving DecidableEq

/-- A risk flag; the report renders it as a formatted string determined by
these payloads. -/
inductive RiskFlag where
  | mover (ticker : String) (pct : ℚ)
  | nearStop (ticker : String) (dist : ℚ)
deriving DecidableEq

/-- The sort key of the watchlist-log date sort in the prev-price lookup. -/
def wlDateLE (a b : WatchLogRow) : Prop := a.date ≤ b.date

instance : DecidableRel wlDateLE := fun a b => Int.decLe a.date b.date

/-- prev_map of build_daily_report.main: the last logged close (strictly
before the as-of date) per ticker; none when absent or NaN. -/
def prevClose (wl_log : List WatchLogRow) (asof : Int) (t : String) : Option ℚ :=
  match (List.insertionSort wlDateLE
      (wl_log.filter (fun x => x.ticker == t && decide (x.date < asof)))).getLast? with
  | none => none
  | some x => x.close_sek

/-- The daily percentage-change computation over the watchlist snapshot. -/
def buildMovers (wl_snap : List WatchRow) (prev : String → Option ℚ) : List Mover :=
  wl_snap.map fun r =>
    { ticker := r.ticker, price := r.close_sek,
      pct :=
        match r.close_sek, prev r.ticker with
        | some c, some p => if p = 0 then none else some ((c / p - 1) * 100)
        | _, _ => none,
      in_portfolio := r.in_portfolio }

/-- Descending stable order on the defined percentage moves (sorted with
reverse=True is stable, as is insertion sort with this relation). -/
def moverGE (a b : Mover) : Prop := b.pct.getD 0 ≤ a.pct.getD 0

instance : DecidableRel moverGE :=
  fun a b => inferInstanceAs (Decidable (b.pct.getD 0 ≤ a.pct.getD 0))

/-- top_winners of build_daily_report.main; empty whenever the day's watchlist
snapshot is empty (the whole movers block is guarded by it). -/
def topWinners (wl_snap : List WatchRow) (wl_log : List WatchLogRow) (asof : Int) : List Mover :=
  if wl_snap = [] then []
  else
    (List.insertionSort moverGE
      ((buildMovers wl_snap (prevClose wl_log asof)).filter (fun m => m.pct.isSome))).take 3

/-- risk_flags of build_daily_report.main. Both the ±8 percent mover flags and
the near-stop flags are computed inside the block guarded by a non-empty
watchlist snapshot. -/
def riskFlags (wl_snap : List WatchRow) (wl_log : List WatchLogRow) (asof : Int)
    (merged : List PositionRow) : List RiskFlag :=
  if wl_snap = [] then []
  else
    ((buildMovers wl_snap (prevClose wl_log asof)).filter (fun m => m.pct.isSome)).filterMap
      (fun m =>
        match m.pct with
        | some p => if p ≥ 8 ∨ p ≤ -8 then some (RiskFlag.mover m.ticker p) else none
        | none => none)
    ++ merged.filterMap (fun r =>
        if pyUpper r.ticker ≠ "CASH" then
          match r.sl_dist_pct with
          | some d => if d ≤ 3 then some (RiskFlag.nearStop r.ticker d) else none
          | none => none
        else none)

/-- The SELL pass: one market-on-open SELL per non-cash position whose
stop-loss triggered and whose price is defined. -/
def sellOrders (merged : List PositionRow) : List OrderSug :=
  merged.filterMap fun r =>
    if r.stoploss_triggad = true ∧ pyUpper r.ticker ≠ "CASH" then
      match r.close_sek with
      | some e => some (OrderSug.sell r.ticker e r.stop_loss)
      | none => none
    else none

/-- owned: the upper-cased tickers of the non-cash holdings. -/
def ownedSet (merged : List PositionRow) : List String :=
  (merged.filter (fun r => pyUpper r.ticker != "CASH")).map (fun r => pyUpper r.ticker)

/-- cash_val: the summed market value of the CASH rows. -/
def cashVal (merged : List PositionRow) : ℚ :=
  ((merged.filter (fun r => pyUpper r.ticker == "CASH")).map (fun r => r.marknadsvarde)).sum

/-- total_val: the summed market value of all rows. -/
def totalVal (merged : List PositionRow) : ℚ :=
  (merged.map (fun r => r.marknadsvarde)).sum

/-- global_dd of build_daily_report.main: last over first total value of the
date-sorted ledger, as a percentage; NaN when the ledger is empty, the base is
missing or zero, or the last total is missing. -/
def globalDD (eod : List LedgerRow) : Option ℚ :=
  match (List.insertionSort dateLE eod).head?, (List.insertionSort dateLE eod).getLast? with
  | some h, some lst =>
    match h.total_value_SEK with
    | some b =>
      if b = 0 then none
      else
        match lst.total_value_SEK with
        | some lv => some ((lv / b - 1) * 100)
        | none => none
    | none => none
  | _, _ => none

/-- can_buy = pd.isna(global_dd) or global_dd >= -15.0. -/
def canBuy (eod : List LedgerRow) : Bool :=
  match globalDD eod with
  | none => true
  | some d => decide (-15 ≤ d)

/-- The BUY loop over the ranked winners, with the remaining-slot budget, the
not-already-held check, the positive-price and positive-total checks, the
fixed 5 percent size inside the clamp min(10, max(2, 5)), and the capital
guard alloc * 2 > cash_val. -/
def buyLoop (owned : List String) (cash_val total_val : ℚ) :
    List Mover → Nat → List OrderSug
  | [], _ => []
  | w :: ws, k =>
    if k = 0 then []
    else if pyUpper w.ticker ∈ owned then buyLoop owned cash_val total_val ws k
    else
      match w.price with
      | none => buyLoop owned cash_val total_val ws k
      | some p =>
        if p ≤ 0 then buyLoop owned cash_val total_val ws k
        else if total_val ≤ 0 then buyLoop owned cash_val total_val ws k
        else if total_val * (min 10 (max 2 5)) / 100 * 2 > cash_val then
          buyLoop owned cash_val total_val ws k
        else
          OrderSug.buy w.ticker (min 10 (max 2 5)) p (pyRound2 (p * (92 / 100))) ::
            buyLoop owned cash_val total_val ws (k - 1)

/-- The tail of the order list after the SELL pass: the BUY branch if the
drawdown guard permits and winners exist, the lone HOLD if the guard blocks,
else nothing. -/
def buyOrHold (eod : List LedgerRow) (merged : List PositionRow) (wl_snap : List WatchRow)
    (wl_log : List WatchLogRow) (asof : Int) : List OrderSug :=
  if canBuy eod = true ∧ topWinners wl_snap wl_log asof ≠ [] then
    buyLoop (ownedSet merged) (cashVal merged) (totalVal merged)
      (topWinners wl_snap wl_log asof) (3 - (sellOrders merged).length)
  else if canBuy eod = false then [OrderSug.hold]
  else []

/-- The order-suggestion engine of build_daily_report.main: SELLs first, then
the BUY branch or the HOLD marker, truncated to three (orders = orders[:3]). -/
def dailyOrders (eod : List LedgerRow) (merged : List PositionRow) (wl_snap : List WatchRow)
    (wl_log : List WatchLogRow) (asof : Int) : List OrderSug :=
  (sellOrders merged ++ buyOrHold eod merged wl_snap wl_log asof).take 3

/-! ### The holdings snapshot diff (build_daily_report.main; the weekly
builder runs the same set logic behind an additional non-emptiness guard) -/

/-- One row of a holdings snapshot used for diffing: ticker and quantity. -/
structure SnapRow where
  ticker : String
  antal : Option ℚ
deriving DecidableEq

/-- The first quantity recorded for a ticker (df.loc[df.Ticker == t].iloc[0]);
none when the ticker is absent or the quantity is NaN. -/
def qtyOf (l : List SnapRow) (t : String) : Option ℚ :=
  match l.find? (fun x => x.ticker == t) with
  | some x => x.antal
  | none => none

/-- abs(q1 - q2) > 1e-9; false when either quantity is NaN, matching the
NaN-propagating float comparison. -/
def qtyChanged (prevQ curQ : Option ℚ) : Bool :=
  match prevQ, curQ with
  | some a, some b => decide (|a - b| > 1 / 1000000000)
  | _, _ => false

/-- The three diff categories (new, closed, changed) of build_daily_report.
The whole block is guarded by a non-empty previous snapshot (if not
prev.empty), so an empty previous snapshot yields three empty lists. The
reported strings are determined by ticker and quantities; the lists here
carry the tickers. -/
def holdingsDiff (cur prev : List SnapRow) : List String × List String × List String :=
  if prev = [] then ([], [], [])
  else
    ((cur.map (fun x => x.ticker)).dedup.filter
        (fun t => !(prev.map (fun x => x.ticker)).dedup.contains t && pyUpper t != "CASH"),
     (prev.map (fun x => x.ticker)).dedup.filter
        (fun t => !(cur.map (fun x => x.ticker)).dedup.contains t && pyUpper t != "CASH"),
     (cur.map (fun x => x.ticker)).dedup.filter
        (fun t => (prev.map (fun x => x.ticker)).dedup.contains t && pyUpper t != "CASH" &&
          qtyChanged (qtyOf prev t) (qtyOf cur t)))

/-- The implicit unchanged category of the diff-completeness property: present
in both snapshots, not CASH, quantity not changed beyond the epsilon; empty
under the same first-run guard as the explicit categories. -/
def unchangedTickers (cur prev : List SnapRow) : List String :=
  if prev = [] then []
  else
    (cur.map (fun x => x.ticker)).dedup.filter
      (fun t => (prev.map (fun x => x.ticker)).dedup.contains t && pyUpper t != "CASH" &&
        !qtyChanged (qtyOf prev t) (qtyOf cur t))

/-! ### Lemmas about the ledger upsert -/

theorem inputOf_setFields (x : LedgerRow) (r : EodInput) : inputOf (setFields x r) = r := rfl

theorem inputOf_newRow (r : EodInput) : inputOf (newRow r) = r := rfl

theorem setFields_eq_self {x : LedgerRow} {r : EodInput} (h : inputOf x = r) :
    setFields x r = x := by
  cases x
  cases h
  rfl

@[simp] theorem date_setFields (x : LedgerRow) (r : EodInput) : (setFields x r).date = r.date :=
  rfl

@[simp] theorem date_newRow (r : EodInput) : (newRow r).date = r.date := rfl

@[simp] theorem date_recomputeRow (b : Int) (p bm : Option ℚ) (x : LedgerRow) :
    (recomputeRow b p bm x).date = x.date := rfl

@[simp] theorem total_recomputeRow (b : Int) (p bm : Option ℚ) (x : LedgerRow) :
    (recomputeRow b p bm x).total_value_SEK = x.total_value_SEK := rfl

@[simp] theorem bm_recomputeRow (b : Int) (p bm : Option ℚ) (x : LedgerRow) :
    (recomputeRow b p bm x).benchmark_SEK = x.benchmark_SEK := rfl

@[simp] theorem dayIndex_recomputeRow (b : Int) (p bm : Option ℚ) (x : LedgerRow) :
    (recomputeRow b p bm x).day_index = x.date - b := rfl

@[simp] theorem inputOf_recomputeRow (b : Int) (p bm : Option ℚ) (x : LedgerRow) :
    inputOf (recomputeRow b p bm x) = inputOf x := rfl

theorem filter_orderedInsert_of_eq {a : LedgerRow} {d : Int} (h : a.date = d)
    (l : List LedgerRow) :
    (List.orderedInsert dateLE a l).filter (dmatch d) = a :: l.filter (dmatch d) := by
  induction l with
  | nil => simp [List.orderedInsert, dmatch, h]
  | cons b t ih =>
    rw [List.orderedInsert]
    by_cases hab : dateLE a b
    · rw [if_pos hab]
      simp [List.filter_cons, dmatch, h]
    · rw [if_neg hab]
      have hb : dmatch d b = false := by
        have hlt : b.date < a.date := lt_of_not_le (by simpa [dateLE] using hab)
        simp only [dmatch, beq_eq_false_iff_ne, ne_eq]
        omega
      simp [List.filter_cons, hb, ih]

theorem filter_orderedInsert_of_ne {a : LedgerRow} {d : Int} (h : ¬ a.date = d)
    (l : List LedgerRow) :
    (List.orderedInsert dateLE a l).filter (dmatch d) = l.filter (dmatch d) := by
  have ha : dmatch d a = false := by
    simp only [dmatch, beq_eq_false_iff_ne, ne_eq]
    exact h
  induction l with
  | nil => simp [List.orderedInsert, ha]
  | cons b t ih =>
    rw [List.orderedInsert]
    by_cases hab : dateLE a b
    · rw [if_pos hab]
      simp [List.filter_cons, ha]
    · rw [if_neg hab]
      simp [List.filter_cons, ih]

theorem filter_insertionSort_dmatch (d : Int) (l : List LedgerRow) :
    (List.insertionSort dateLE l).filter (dmatch d) = l.filter (dmatch d) := by
  induction l with
  | nil => rfl
  | cons a t ih =>
    rw [List.insertionSort]
    by_cases h : a.date = d
    · rw [filter_orderedInsert_of_eq h, ih]
      simp [List.filter_cons, dmatch, h]
    · rw [filter_orderedInsert_of_ne h, ih]
      simp [List.filter_cons, dmatch, h]

theorem filter_updateFirst (l : List LedgerRow) (r : EodInput) :
    (updateFirst l r).filter (dmatch r.date) =
      match l.filter (dmatch r.date) with
      | [] => []
      | x :: t => setFields x r :: t := by
  induction l with
  | nil => rfl
  | cons y t ih =>
    by_cases h : y.date = r.date
    · rw [updateFirst, if_pos h]
      simp [List.filter_cons, dmatch, h]
    · rw [updateFirst, if_neg h]
      simp [List.filter_cons, dmatch, h, ih]

theorem filter_upsertRows (l : List LedgerRow) (r : EodInput) :
    ∃ u t, (upsertRows l r).filter (dmatch r.date) = u :: t ∧ inputOf u = r := by
  rw [upsertRows]
  by_cases h : l.any (dmatch r.date) = true
  · rw [if_pos h]
    obtain ⟨x, hx, hxd⟩ := List.any_eq_true.mp h
    have hne : l.filter (dmatch r.date) ≠ [] := by
      intro hnil
      have hmem : x ∈ l.filter (dmatch r.date) := List.mem_filter.mpr ⟨hx, hxd⟩
      rw [hnil] at hmem
      exact absurd hmem (List.not_mem_nil x)
    obtain ⟨u0, t0, ht⟩ := List.exists_cons_of_ne_nil hne
    refine ⟨setFields u0 r, t0, ?_, inputOf_setFields u0 r⟩
    rw [filter_updateFirst, ht]
  · rw [if_neg h]
    have hl : l.filter (dmatch r.date) = [] := by
      rw [List.filter_eq_nil_iff]
      intro a ha hpa
      exact h (List.any_eq_true.mpr ⟨a, ha, hpa⟩)
    refine ⟨newRow r, [], ?_, inputOf_newRow r⟩
    rw [List.filter_append, hl]
    simp [dmatch]

theorem updateFirst_eq_self {r : EodInput} {u : LedgerRow} {t : List LedgerRow} :
    ∀ l : List LedgerRow, l.filter (dmatch r.date) = u :: t → inputOf u = r →
      updateFirst l r = l := by
  intro l
  induction l with
  | nil => intro hf _; simp at hf
  | cons y ys ih =>
    intro hf hu
    by_cases h : y.date = r.date
    · have hy : y = u ∧ ys.filter (dmatch r.date) = t := by
        rw [List.filter_cons] at hf
        simpa [dmatch, h] using hf
      rw [updateFirst, if_pos h, setFields_eq_self (hy.1 ▸ hu)]
    · rw [updateFirst, if_neg h]
      rw [List.filter_cons] at hf
      simp only [dmatch, beq_iff_eq, h, if_false] at hf
      rw [ih hf hu]

theorem recompute_exists_map (l : List LedgerRow) :
    ∃ b p bm, recompute l = l.map (recomputeRow b p bm) := by
  cases l with
  | nil => exact ⟨0, none, none, rfl⟩
  | cons x xs => exact ⟨x.date, x.total_value_SEK, firstBM (x :: xs), rfl⟩

theorem filter_map_recomputeRow (b : Int) (p bm : Option ℚ) (l : List LedgerRow) (d : Int) :
    (l.map (recomputeRow b p bm)).filter (dmatch d) =
      (l.filter (dmatch d)).map (recomputeRow b p bm) := by
  rw [List.filter_map]
  rfl

theorem sorted_upsert (l : List LedgerRow) (r : EodInput) :
    List.Sorted dateLE (upsert_eod l r) := by
  obtain ⟨b, p, bm, hm⟩ := recompute_exists_map (List.insertionSort dateLE (upsertRows l r))
  rw [upsert_eod, hm]
  have hs := List.sorted_insertionSort dateLE (upsertRows l r)
  exact List.pairwise_map.mpr (List.Pairwise.imp (fun h => h) hs)

theorem firstBM_map_recomputeRow (b : Int) (p bm : Option ℚ) (l : List LedgerRow) :
    firstBM (l.map (recomputeRow b p bm)) = firstBM l := by
  induction l with
  | nil => rfl
  | cons x xs ih =>
    rw [List.map_cons]
    cases hx : x.benchmark_SEK <;> simp [firstBM, hx, ih]

theorem recomputeRow_idem (b : Int) (p bm : Option ℚ) (x : LedgerRow) :
    recomputeRow b p bm (recomputeRow b p bm x) = recomputeRow b p bm x := by
  cases bm <;> rfl

theorem recompute_recompute (l : List LedgerRow) : recompute (recompute l) = recompute l := by
  cases l with
  | nil => rfl
  | cons x xs =>
    show recompute ((x :: xs).map (recomputeRow x.date x.total_value_SEK (firstBM (x :: xs)))) =
      (x :: xs).map (recomputeRow x.date x.total_value_SEK (firstBM (x :: xs)))
    rw [List.map_cons, recompute, date_recomputeRow, total_recomputeRow, ← List.map_cons,
      firstBM_map_recomputeRow, List.map_map]
    apply List.map_congr_left
    intro a _
    exact recomputeRow_idem _ _ _ a

/-- C1: the ledger upsert is idempotent. For every ledger state and every
written row, applying upsert_eod twice with the same row (hence the same
date) yields a ledger identical to applying it once. -/
theorem upsert_eod_idempotent (l : List LedgerRow) (r : EodInput) :
    upsert_eod (upsert_eod l r) r = upsert_eod l r := by
  obtain ⟨u, t, hft, hu⟩ := filter_upsertRows l r
  obtain ⟨b, p, bm, hmap⟩ := recompute_exists_map (List.insertionSort dateLE (upsertRows l r))
  have hMfilter : (upsert_eod l r).filter (dmatch r.date)
      = recomputeRow b p bm u :: t.map (recomputeRow b p bm) := by
    rw [upsert_eod, hmap, filter_map_recomputeRow, filter_insertionSort_dmatch, hft,
      List.map_cons]
  have hiu : inputOf (recomputeRow b p bm u) = r := by rw [inputOf_recomputeRow, hu]
  have hany : (upsert_eod l r).any (dmatch r.date) = true := by
    have humem : recomputeRow b p bm u ∈ (upsert_eod l r).filter (dmatch r.date) := by
      rw [hMfilter]
      exact List.mem_cons_self _ _
    exact List.any_eq_true.mpr
      ⟨_, List.mem_of_mem_filter humem, (List.mem_filter.mp humem).2⟩
  have hupd : upsertRows (upsert_eod l r) r = upsert_eod l r := by
    rw [upsertRows, if_pos hany]
    exact updateFirst_eq_self _ hMfilter hiu
  have hsorted : List.Sorted dateLE (upsert_eod l r) := sorted_upsert l r
  have hrec : recompute (upsert_eod l r) = upsert_eod l r := by
    conv_lhs => rw [upsert_eod]
    conv_rhs => rw [upsert_eod]
    exact recompute_recompute _
  rw [upsert_eod, hupd, hsorted.insertionSort_eq]
  exact hrec

theorem map_date_updateFirst (l : List LedgerRow) (r : EodInput) :
    (updateFirst l r).map (fun x => x.date) = l.map (fun x => x.date) := by
  induction l with
  | nil => rfl
  | cons y ys ih =>
    by_cases h : y.date = r.date
    · rw [updateFirst, if_pos h]
      simp [h]
    · rw [updateFirst, if_neg h]
      simp [ih]

theorem length_updateFirst (l : List LedgerRow) (r : EodInput) :
    (updateFirst l r).length = l.length := by
  have h := congrArg List.length (map_date_updateFirst l r)
  simpa using h

theorem pairwise_ne_date_iff (l : List LedgerRow) :
    oneRowPerDate l ↔ (l.map (fun x => x.date)).Pairwise (fun a b => a ≠ b) := by
  rw [oneRowPerDate, List.pairwise_map]

theorem oneRowPerDate_upsert (l : List LedgerRow) (r : EodInput) (h : oneRowPerDate l) :
    oneRowPerDate (upsert_eod l r) := by
  have hN : oneRowPerDate (upsertRows l r) := by
    rw [upsertRows]
    by_cases hc : l.any (dmatch r.date) = true
    · rw [if_pos hc]
      rw [pairwise_ne_date_iff] at h ⊢
      rw [map_date_updateFirst]
      exact h
    · rw [if_neg hc]
      rw [oneRowPerDate, List.pairwise_append]
      refine ⟨h, List.pairwise_singleton _ _, ?_⟩
      intro a ha c hc2
      have hcn : c = newRow r := by simpa using hc2
      subst hcn
      rw [date_newRow]
      intro heq
      exact hc (List.any_eq_true.mpr ⟨a, ha, by simp [dmatch, heq]⟩)
  have hS : oneRowPerDate (List.insertionSort dateLE (upsertRows l r)) := by
    rw [oneRowPerDate]
    exact (List.Perm.pairwise_iff (fun hab => Ne.symm hab)
      (List.perm_insertionSort dateLE _)).mpr hN
  obtain ⟨b, p, bm, hmap⟩ := recompute_exists_map (List.insertionSort dateLE (upsertRows l r))
  rw [upsert_eod, hmap, pairwise_ne_date_iff, List.map_map]
  rw [pairwise_ne_date_iff] at hS
  exact hS

theorem length_upsert_of_mem (l : List LedgerRow) (r : EodInput)
    (h : ∃ x ∈ l, x.date = r.date) : (upsert_eod l r).length = l.length := by
  have hany : l.any (dmatch r.date) = true := by
    obtain ⟨x, hx, hd⟩ := h
    exact List.any_eq_true.mpr ⟨x, hx, by simp [dmatch, hd]⟩
  obtain ⟨b, p, bm, hmap⟩ := recompute_exists_map (List.insertionSort dateLE (upsertRows l r))
  rw [upsert_eod, hmap, List.length_map, (List.perm_insertionSort dateLE _).length_eq,
    upsertRows, if_pos hany, length_updateFirst]

theorem upsert_replaces (l : List LedgerRow) (r : EodInput) (h : oneRowPerDate l) :
    ∀ y ∈ upsert_eod l r, y.date = r.date → inputOf y = r := by
  intro y hy hyd
  obtain ⟨u, t, hft, hu⟩ := filter_upsertRows l r
  obtain ⟨b, p, bm, hmap⟩ := recompute_exists_map (List.insertionSort dateLE (upsertRows l r))
  have hMfilter : (upsert_eod l r).filter (dmatch r.date)
      = recomputeRow b p bm u :: t.map (recomputeRow b p bm) := by
    rw [upsert_eod, hmap, filter_map_recomputeRow, filter_insertionSort_dmatch, hft,
      List.map_cons]
  have hyf : y ∈ (upsert_eod l r).filter (dmatch r.date) :=
    List.mem_filter.mpr ⟨hy, by simp [dmatch, hyd]⟩
  have hpwf : ((upsert_eod l r).filter (dmatch r.date)).Pairwise
      (fun a c => a.date ≠ c.date) :=
    List.Pairwise.sublist (List.filter_sublist _) (oneRowPerDate_upsert l r h)
  rw [hMfilter] at hyf hpwf
  rcases List.mem_cons.mp hyf with h1 | h2
  · rw [h1, inputOf_recomputeRow, hu]
  · exfalso
    have humem : u ∈ (upsertRows l r).filter (dmatch r.date) := by
      rw [hft]
      exact List.mem_cons_self _ _
    have hud : u.date = r.date := by
      have := (List.mem_filter.mp humem).2
      simpa [dmatch] using this
    have hhead := List.rel_of_pairwise_cons hpwf h2
    rw [date_recomputeRow, hud, hyd] at hhead
    exact hhead rfl

/-- C2: the ledger holds at most one row per calendar date, and upsert_eod
preserves this; a write whose date is already present replaces that row (the
ledger length is unchanged and the row at that date carries exactly the
written fields) rather than adding a second row for the date. -/
theorem upsert_one_row_per_date (l : List LedgerRow) (r : EodInput) (h : oneRowPerDate l) :
    oneRowPerDate (upsert_eod l r) ∧
      ((∃ x ∈ l, x.date = r.date) → (upsert_eod l r).length = l.length) ∧
      (∀ y ∈ upsert_eod l r, y.date = r.date → inputOf y = r) :=
  ⟨oneRowPerDate_upsert l r h, fun hx => length_upsert_of_mem l r hx, upsert_replaces l r h⟩

/-- C2, witness: a concrete one-row ledger updated at its own date keeps
exactly one row, and that row carries the newly written fields. -/
theorem upsert_one_row_per_date_witness :
    oneRowPerDate [⟨0, 0, "", "", 0, some 100, none, none, none, ""⟩] ∧
      (oneRowPerDate (upsert_eod [⟨0, 0, "", "", 0, some 100, none, none, none, ""⟩]
          ⟨0, "p", 7, some 50, none, "n"⟩) ∧
        ((∃ x ∈ [(⟨0, 0, "", "", 0, some 100, none, none, none, ""⟩ : LedgerRow)],
            x.date = (0 : Int)) →
          (upsert_eod [⟨0, 0, "", "", 0, some 100, none, none, none, ""⟩]
            ⟨0, "p", 7, some 50, none, "n"⟩).length = 1) ∧
        (∀ y ∈ upsert_eod [⟨0, 0, "", "", 0, some 100, none, none, none, ""⟩]
            ⟨0, "p", 7, some 50, none, "n"⟩,
          y.date = (0 : Int) → inputOf y = ⟨0, "p", 7, some 50, none, "n"⟩)) := by
  constructor
  · simp [oneRowPerDate]
  · exact upsert_one_row_per_date _ _ (by simp [oneRowPerDate])

theorem upsertRows_ne_nil (l : List LedgerRow) (r : EodInput) : upsertRows l r ≠ [] := by
  rw [upsertRows]
  by_cases h : l.any (dmatch r.date) = true
  · rw [if_pos h]
    obtain ⟨x, hx, _⟩ := List.any_eq_true.mp h
    cases l with
    | nil => simp at hx
    | cons a s =>
      rw [updateFirst]
      split <;> simp
  · rw [if_neg h]
    simp

/-- C5: after every upsert, every row's day_index equals the whole-day
difference between its date and the minimum date present in the ledger (the
base b below is attained and is a lower bound of all dates); in particular a
backfilled earlier row re-bases every other row's index. -/
theorem upsert_day_index (l : List LedgerRow) (r : EodInput) :
    ∃ b : Int, (∃ y ∈ upsert_eod l r, y.date = b) ∧
      ∀ x ∈ upsert_eod l r, b ≤ x.date ∧ x.day_index = x.date - b := by
  have hne : List.insertionSort dateLE (upsertRows l r) ≠ [] := by
    intro hnil
    apply upsertRows_ne_nil l r
    have hlen := (List.perm_insertionSort dateLE (upsertRows l r)).length_eq
    rw [hnil] at hlen
    exact List.eq_nil_of_length_eq_zero hlen.symm
  obtain ⟨x, xs, hxx⟩ := List.exists_cons_of_ne_nil hne
  have hsorted := List.sorted_insertionSort dateLE (upsertRows l r)
  rw [hxx] at hsorted
  have hM : upsert_eod l r
      = (x :: xs).map (recomputeRow x.date x.total_value_SEK (firstBM (x :: xs))) := by
    rw [upsert_eod, hxx, recompute]
  refine ⟨x.date, ⟨recomputeRow x.date x.total_value_SEK (firstBM (x :: xs)) x,
    by rw [hM]; exact List.mem_cons_self _ _, date_recomputeRow _ _ _ _⟩, ?_⟩
  intro z hz
  rw [hM] at hz
  obtain ⟨y, hy, rfl⟩ := List.mem_map.mp hz
  refine ⟨?_, by rw [dayIndex_recomputeRow, date_recomputeRow]⟩
  rw [date_recomputeRow]
  rcases List.mem_cons.mp hy with rfl | hy2
  · exact le_refl _
  · exact List.rel_of_sorted_cons hsorted y hy2

/-- C5, witness: the day-index property instantiated at a concrete upsert. -/
theorem upsert_day_index_witness :
    ∃ b : Int, (∃ y ∈ upsert_eod [⟨3, 0, "", "", 0, some 100, none, none, none, ""⟩]
        ⟨1, "p", 2, some 80, none, "n"⟩, y.date = b) ∧
      ∀ x ∈ upsert_eod [⟨3, 0, "", "", 0, some 100, none, none, none, ""⟩]
          ⟨1, "p", 2, some 80, none, "n"⟩, b ≤ x.date ∧ x.day_index = x.date - b :=
  upsert_day_index _ _

/-! ### Lemmas about the order-suggestion engine -/

theorem buyLoop_nil (owned : List String) (c tv : ℚ) (k : Nat) :
    buyLoop owned c tv [] k = [] := rfl

theorem mem_sellOrders {o : OrderSug} {m : List PositionRow} (h : o ∈ sellOrders m) :
    ∃ r ∈ m, r.stoploss_triggad = true ∧ pyUpper r.ticker ≠ "CASH" ∧
      ∃ e, r.close_sek = some e ∧ o = OrderSug.sell r.ticker e r.stop_loss := by
  obtain ⟨r, hr, hf⟩ := List.mem_filterMap.mp h
  refine ⟨r, hr, ?_⟩
  by_cases hc : r.stoploss_triggad = true ∧ pyUpper r.ticker ≠ "CASH"
  · rw [if_pos hc] at hf
    cases he : r.close_sek with
    | none => rw [he] at hf; simp at hf
    | some e =>
      rw [he] at hf
      simp only [Option.some.injEq] at hf
      exact ⟨hc.1, hc.2, e, rfl, hf.symm⟩
  · rw [if_neg hc] at hf
    simp at hf

theorem sellOrders_shape {o : OrderSug} {m : List PositionRow} (h : o ∈ sellOrders m) :
    ∃ t e s, o = OrderSug.sell t e s := by
  obtain ⟨r, _, _, _, e, _, ho⟩ := mem_sellOrders h
  exact ⟨r.ticker, e, r.stop_loss, ho⟩

theorem mem_buyLoop {o : OrderSug} {owned : List String} {c tv : ℚ} :
    ∀ (ws : List Mover) (k : Nat), o ∈ buyLoop owned c tv ws k →
      ∃ w ∈ ws, ∃ p : ℚ,
        o = OrderSug.buy w.ticker (min 10 (max 2 5)) p (pyRound2 (p * (92 / 100))) ∧
          w.price = some p ∧ pyUpper w.ticker ∉ owned ∧ ¬ p ≤ 0 ∧ ¬ tv ≤ 0 ∧
          ¬ tv * (min 10 (max 2 5)) / 100 * 2 > c := by
  intro ws
  induction ws with
  | nil => intro k h; simp [buyLoop] at h
  | cons w ws ih =>
    intro k h
    rw [buyLoop] at h
    by_cases h0 : k = 0
    · rw [if_pos h0] at h
      simp at h
    · rw [if_neg h0] at h
      by_cases h1 : pyUpper w.ticker ∈ owned
      · rw [if_pos h1] at h
        obtain ⟨w', hw', rest⟩ := ih _ h
        exact ⟨w', List.mem_cons_of_mem w hw', rest⟩
      · rw [if_neg h1] at h
        cases hp : w.price with
        | none =>
          simp only [hp] at h
          obtain ⟨w', hw', rest⟩ := ih _ h
          exact ⟨w', List.mem_cons_of_mem w hw', rest⟩
        | some p =>
          simp only [hp] at h
          by_cases h2 : p ≤ 0
          · rw [if_pos h2] at h
            obtain ⟨w', hw', rest⟩ := ih _ h
            exact ⟨w', List.mem_cons_of_mem w hw', rest⟩
          · rw [if_neg h2] at h
            by_cases h3 : tv ≤ 0
            · rw [if_pos h3] at h
              obtain ⟨w', hw', rest⟩ := ih _ h
              exact ⟨w', List.mem_cons_of_mem w hw', rest⟩
            · rw [if_neg h3] at h
              by_cases h4 : tv * (min 10 (max 2 5)) / 100 * 2 > c
              · rw [if_pos h4] at h
                obtain ⟨w', hw', rest⟩ := ih _ h
                exact ⟨w', List.mem_cons_of_mem w hw', rest⟩
              · rw [if_neg h4] at h
                rcases List.mem_cons.mp h with rfl | htail
                · exact ⟨w, List.mem_cons_self _ _, p, rfl, hp, h1, h2, h3, h4⟩
                · obtain ⟨w', hw', rest⟩ := ih _ htail
                  exact ⟨w', List.mem_cons_of_mem w hw', rest⟩

theorem mem_buyOrHold {o : OrderSug} {eod : List LedgerRow} {merged : List PositionRow}
    {wl_snap : List WatchRow} {wl_log : List WatchLogRow} {asof : Int}
    (h : o ∈ buyOrHold eod merged wl_snap wl_log asof) :
    (canBuy eod = true ∧ ∃ w ∈ topWinners wl_snap wl_log asof, ∃ p : ℚ,
        o = OrderSug.buy w.ticker (min 10 (max 2 5)) p (pyRound2 (p * (92 / 100))) ∧
          w.price = some p ∧ pyUpper w.ticker ∉ ownedSet merged ∧ ¬ p ≤ 0 ∧
          ¬ totalVal merged ≤ 0 ∧
          ¬ totalVal merged * (min 10 (max 2 5)) / 100 * 2 > cashVal merged) ∨
      (canBuy eod = false ∧ o = OrderSug.hold) := by
  rw [buyOrHold] at h
  by_cases h1 : canBuy eod = true ∧ topWinners wl_snap wl_log asof ≠ []
  · rw [if_pos h1] at h
    exact Or.inl ⟨h1.1, mem_buyLoop _ _ h⟩
  · rw [if_neg h1] at h
    by_cases h2 : canBuy eod = false
    · rw [if_pos h2] at h
      simp only [List.mem_singleton] at h
      exact Or.inr ⟨h2, h⟩
    · rw [if_neg h2] at h
      simp at h

/-- C3: for any input, the order-suggestion engine returns at most three
suggestions; the returned list is exactly the truncation to three of the
SELL pass followed by the BUY/HOLD pass, so SELLs have priority. -/
theorem dailyOrders_le_three (eod : List LedgerRow) (merged : List PositionRow)
    (wl_snap : List WatchRow) (wl_log : List WatchLogRow) (asof : Int) :
    (dailyOrders eod merged wl_snap wl_log asof).length ≤ 3 ∧
      dailyOrders eod merged wl_snap wl_log asof =
        (sellOrders merged ++ buyOrHold eod merged wl_snap wl_log asof).take 3 := by
  refine ⟨?_, rfl⟩
  rw [dailyOrders, List.length_take]
  exact min_le_left _ _

/-- C4: the capital guard. No BUY suggestion is ever emitted whose doubled
allocation, size_pct / 100 of the total portfolio value, exceeds the cash
value at evaluation time. -/
theorem buy_capital_guard (eod : List LedgerRow) (merged : List PositionRow)
    (wl_snap : List WatchRow) (wl_log : List WatchLogRow) (asof : Int)
    (t : String) (sp e sl : ℚ)
    (h : OrderSug.buy t sp e sl ∈ dailyOrders eod merged wl_snap wl_log asof) :
    2 * (sp / 100 * totalVal merged) ≤ cashVal merged := by
  rw [dailyOrders] at h
  have h2 := List.take_subset _ _ h
  rcases List.mem_append.mp h2 with hs | hb
  · obtain ⟨t', e', s', hshape⟩ := sellOrders_shape hs
    simp at hshape
  · rcases mem_buyOrHold hb with ⟨_, w, _, p, hshape, _, _, _, _, hguard⟩ | ⟨_, hshape⟩
    · have hsp : sp = min 10 (max 2 5) := by
        simp only [OrderSug.buy.injEq] at hshape
        exact hshape.2.1
      subst hsp
      have hle := not_lt.mp hguard
      norm_num at hle ⊢
      linarith
    · simp at hshape

/-- C9, amended: a HOLD is emitted only when the drawdown guard blocks buying
(can_buy is false), and a suggestion list containing a HOLD contains no BUY
suggestion; SELL suggestions, which are generated before the guard is
consulted, may still accompany the HOLD. -/
theorem hold_only_when_guard_blocks (eod : List LedgerRow) (merged : List PositionRow)
    (wl_snap : List WatchRow) (wl_log : List WatchLogRow) (asof : Int)
    (h : OrderSug.hold ∈ dailyOrders eod merged wl_snap wl_log asof) :
    canBuy eod = false ∧
      ∀ (t : String) (sp e sl : ℚ),
        OrderSug.buy t sp e sl ∉ dailyOrders eod merged wl_snap wl_log asof := by
  rw [dailyOrders] at h
  have h2 := List.take_subset _ _ h
  rcases List.mem_append.mp h2 with hs | hb
  · obtain ⟨t, e, s, hsh⟩ := sellOrders_shape hs
    simp at hsh
  · rcases mem_buyOrHold hb with ⟨_, w, _, p, hsh, _⟩ | ⟨hcb, _⟩
    · simp at hsh
    · refine ⟨hcb, ?_⟩
      intro t sp e sl hbuy
      rw [dailyOrders] at hbuy
      have h3 := List.take_subset _ _ hbuy
      rcases List.mem_append.mp h3 with hs2 | hb2
      · obtain ⟨t', e', s', hsh2⟩ := sellOrders_shape hs2
        simp at hsh2
      · rcases mem_buyOrHold hb2 with ⟨hcb2, _⟩ | ⟨_, hsh2⟩
        · rw [hcb2] at hcb
          simp at hcb
        · simp at hsh2

/-- C10: in a single run no ticker receives both a SELL and a BUY: every SELL
ticker is a held non-cash position, hence in the owned set that the BUY loop
skips, so the SELL and BUY ticker sets are disjoint. -/
theorem sell_buy_disjoint (eod : List LedgerRow) (merged : List PositionRow)
    (wl_snap : List WatchRow) (wl_log : List WatchLogRow) (asof : Int)
    (t1 : String) (e : ℚ) (sl : String) (t2 : String) (sp e2 sl2 : ℚ)
    (h1 : OrderSug.sell t1 e sl ∈ dailyOrders eod merged wl_snap wl_log asof)
    (h2 : OrderSug.buy t2 sp e2 sl2 ∈ dailyOrders eod merged wl_snap wl_log asof) :
    t1 ≠ t2 := by
  rw [dailyOrders] at h1 h2
  have h1s := List.take_subset _ _ h1
  have h2s := List.take_subset _ _ h2
  have howned : pyUpper t1 ∈ ownedSet merged := by
    rcases List.mem_append.mp h1s with hs | hb
    · obtain ⟨r, hr, _, hcash, e', _, hsh⟩ := mem_sellOrders hs
      have ht1 : t1 = r.ticker := by
        simp only [OrderSug.sell.injEq] at hsh
        exact hsh.1
      rw [ht1, ownedSet]
      exact List.mem_map.mpr ⟨r, List.mem_filter.mpr ⟨hr, by simpa using hcash⟩, rfl⟩
    · rcases mem_buyOrHold hb with ⟨_, w, _, p, hsh, _⟩ | ⟨_, hsh⟩ <;> simp at hsh
  have hnotowned : pyUpper t2 ∉ ownedSet merged := by
    rcases List.mem_append.mp h2s with hs | hb
    · obtain ⟨t', e', s', hsh⟩ := sellOrders_shape hs
      simp at hsh
    · rcases mem_buyOrHold hb with ⟨_, w, _, p, hsh, _, hno, _⟩ | ⟨_, hsh⟩
      · have ht2 : t2 = w.ticker := by
          simp only [OrderSug.buy.injEq] at hsh
          exact hsh.1
        rw [ht2]
        exact hno
      · simp at hsh
  intro heq
  rw [heq] at howned
  exact hnotowned howned

/-- C4, witness: a concrete run that emits a BUY, at which the doubled
allocation is within the available cash. -/
theorem buy_capital_guard_witness :
    OrderSug.buy "AAA" (min 10 (max 2 5)) 10 (pyRound2 (10 * (92 / 100))) ∈
        dailyOrders [] [⟨"CASH", some 1000, some 1, "", some 1, 1000, false, none⟩]
          [⟨"AAA", some 10, false⟩] [⟨0, "AAA", some 5⟩] 1 ∧
      2 * (((min 10 (max 2 5) : ℚ)) / 100 *
          totalVal [⟨"CASH", some 1000, some 1, "", some 1, 1000, false, none⟩]) ≤
        cashVal [⟨"CASH", some 1000, some 1, "", some 1, 1000, false, none⟩] := by
  have hprev : prevClose [⟨0, "AAA", some 5⟩] 1 "AAA" = some 5 := by decide
  have hbm : buildMovers [⟨"AAA", some 10, false⟩] (prevClose [⟨0, "AAA", some 5⟩] 1)
      = [⟨"AAA", some 100, some 10, false⟩] := by
    norm_num [buildMovers, hprev]
  have htw : topWinners [⟨"AAA", some 10, false⟩] [⟨0, "AAA", some 5⟩] 1
      = [⟨"AAA", some 100, some 10, false⟩] := by
    rw [topWinners, if_neg (by simp), hbm]
    rfl
  have hsell : sellOrders [⟨"CASH", some 1000, some 1, "", some 1, 1000, false, none⟩]
      = [] := by
    simp [sellOrders]
  have hup : pyUpper "CASH" = "CASH" := by decide
  have hcv : cashVal [⟨"CASH", some 1000, some 1, "", some 1, 1000, false, none⟩]
      = 1000 := by
    norm_num [cashVal, hup]
  have htv : totalVal [⟨"CASH", some 1000, some 1, "", some 1, 1000, false, none⟩]
      = 1000 := by
    norm_num [totalVal]
  have hos : ownedSet [⟨"CASH", some 1000, some 1, "", some 1, 1000, false, none⟩]
      = [] := by
    simp [ownedSet, hup]
  have hall : dailyOrders [] [⟨"CASH", some 1000, some 1, "", some 1, 1000, false, none⟩]
        [⟨"AAA", some 10, false⟩] [⟨0, "AAA", some 5⟩] 1
      = [OrderSug.buy "AAA" (min 10 (max 2 5)) 10 (pyRound2 (10 * (92 / 100)))] := by
    rw [dailyOrders, buyOrHold, htw, hsell, hos, hcv, htv]
    rw [if_pos ⟨rfl, by simp⟩]
    norm_num [buyLoop, buyLoop_nil]
  rw [hall]
  refine ⟨List.mem_cons_self _ _, ?_⟩
  have hmem : OrderSug.buy "AAA" (min 10 (max 2 5)) 10 (pyRound2 (10 * (92 / 100))) ∈
      dailyOrders [] [⟨"CASH", some 1000, some 1, "", some 1, 1000, false, none⟩]
        [⟨"AAA", some 10, false⟩] [⟨0, "AAA", some 5⟩] 1 := by
    rw [hall]
    exact List.mem_cons_self _ _
  exact buy_capital_guard _ _ _ _ _ _ _ _ _ hmem

/-- C9, counterexample to the claim as stated: with a triggered stop-loss and
a global drawdown of -50 percent, the returned list contains a HOLD together
with a SELL, so a list containing a HOLD is not free of other suggestions. -/
theorem hold_with_sell_counterexample :
    OrderSug.hold ∈ dailyOrders
        [⟨0, 0, "", "", 0, some 100, none, none, none, ""⟩,
         ⟨1, 0, "", "", 0, some 50, none, none, none, ""⟩]
        [⟨"BBB", some 1, some 10, "9", some 5, 0, true, none⟩] [] [] 0 ∧
      dailyOrders
        [⟨0, 0, "", "", 0, some 100, none, none, none, ""⟩,
         ⟨1, 0, "", "", 0, some 50, none, none, none, ""⟩]
        [⟨"BBB", some 1, some 10, "9", some 5, 0, true, none⟩] [] [] 0 ≠
        [OrderSug.hold] := by
  have hB : pyUpper "BBB" ≠ "CASH" := by decide
  have hsell : sellOrders [⟨"BBB", some 1, some 10, "9", some 5, 0, true, none⟩]
      = [OrderSug.sell "BBB" 5 "9"] := by
    simp [sellOrders, hB]
  have hsort : List.insertionSort dateLE
      [⟨0, 0, "", "", 0, some 100, none, none, none, ""⟩,
       ⟨1, 0, "", "", 0, some 50, none, none, none, ""⟩] =
      [⟨0, 0, "", "", 0, some 100, none, none, none, ""⟩,
       ⟨1, 0, "", "", 0, some 50, none, none, none, ""⟩] := by decide
  have hdd : globalDD
      [⟨0, 0, "", "", 0, some 100, none, none, none, ""⟩,
       ⟨1, 0, "", "", 0, some 50, none, none, none, ""⟩] = some (-50) := by
    rw [globalDD, hsort]
    norm_num [List.getLast?]
  have hcb : canBuy
      [⟨0, 0, "", "", 0, some 100, none, none, none, ""⟩,
       ⟨1, 0, "", "", 0, some 50, none, none, none, ""⟩] = false := by
    rw [canBuy, hdd]
    norm_num
  have hall : dailyOrders
      [⟨0, 0, "", "", 0, some 100, none, none, none, ""⟩,
       ⟨1, 0, "", "", 0, some 50, none, none, none, ""⟩]
      [⟨"BBB", some 1, some 10, "9", some 5, 0, true, none⟩] [] [] 0 =
      [OrderSug.sell "BBB" 5 "9", OrderSug.hold] := by
    rw [dailyOrders, buyOrHold, hsell]
    rw [if_neg (by simp [hcb]), if_pos hcb]
    rfl
  rw [hall]
  constructor
  · simp
  · simp

/-- C9, witness for the amended claim: a concrete run whose list contains a
HOLD indeed has the guard blocking and no BUY anywhere in the list. -/
theorem hold_only_when_guard_blocks_witness :
    OrderSug.hold ∈ dailyOrders
        [⟨0, 0, "", "", 0, some 100, none, none, none, ""⟩,
         ⟨1, 0, "", "", 0, some 50, none, none, none, ""⟩] [] [] [] 0 ∧
      (canBuy [⟨0, 0, "", "", 0, some 100, none, none, none, ""⟩,
               ⟨1, 0, "", "", 0, some 50, none, none, none, ""⟩] = false ∧
        ∀ (t : String) (sp e sl : ℚ),
          OrderSug.buy t sp e sl ∉ dailyOrders
            [⟨0, 0, "", "", 0, some 100, none, none, none, ""⟩,
             ⟨1, 0, "", "", 0, some 50, none, none, none, ""⟩] [] [] [] 0) := by
  have hsort : List.insertionSort dateLE
      [⟨0, 0, "", "", 0, some 100, none, none, none, ""⟩,
       ⟨1, 0, "", "", 0, some 50, none, none, none, ""⟩] =
      [⟨0, 0, "", "", 0, some 100, none, none, none, ""⟩,
       ⟨1, 0, "", "", 0, some 50, none, none, none, ""⟩] := by decide
  have hdd : globalDD
      [⟨0, 0, "", "", 0, some 100, none, none, none, ""⟩,
       ⟨1, 0, "", "", 0, some 50, none, none, none, ""⟩] = some (-50) := by
    rw [globalDD, hsort]
    norm_num [List.getLast?]
  have hcb : canBuy
      [⟨0, 0, "", "", 0, some 100, none, none, none, ""⟩,
       ⟨1, 0, "", "", 0, some 50, none, none, none, ""⟩] = false := by
    rw [canBuy, hdd]
    norm_num
  have hall : dailyOrders
      [⟨0, 0, "", "", 0, some 100, none, none, none, ""⟩,
       ⟨1, 0, "", "", 0, some 50, none, none, none, ""⟩] [] [] [] 0 =
      [OrderSug.hold] := by
    rw [dailyOrders, buyOrHold]
    rw [if_neg (by simp [hcb]), if_pos hcb]
    rfl
  have hmem : OrderSug.hold ∈ dailyOrders
      [⟨0, 0, "", "", 0, some 100, none, none, none, ""⟩,
       ⟨1, 0, "", "", 0, some 50, none, none, none, ""⟩] [] [] [] 0 := by
    rw [hall]
    exact List.mem_cons_self _ _
  exact ⟨hmem, hold_only_when_guard_blocks _ _ _ _ _ hmem⟩

/-- C10, witness: a concrete run emitting both a SELL and a BUY, whose
tickers the theorem proves distinct. -/
theorem sell_buy_disjoint_witness :
    OrderSug.sell "BBB" 5 "9" ∈ dailyOrders []
        [⟨"BBB", some 1, some 10, "9", some 5, 0, true, none⟩,
         ⟨"CASH", some 1000, some 1, "", some 1, 1000, false, none⟩]
        [⟨"AAA", some 10, false⟩] [⟨0, "AAA", some 5⟩] 1 ∧
      OrderSug.buy "AAA" (min 10 (max 2 5)) 10 (pyRound2 (10 * (92 / 100))) ∈ dailyOrders []
        [⟨"BBB", some 1, some 10, "9", some 5, 0, true, none⟩,
         ⟨"CASH", some 1000, some 1, "", some 1, 1000, false, none⟩]
        [⟨"AAA", some 10, false⟩] [⟨0, "AAA", some 5⟩] 1 ∧
      ("BBB" : String) ≠ "AAA" := by
  have hB : pyUpper "BBB" ≠ "CASH" := by decide
  have hA : pyUpper "AAA" = "AAA" := by decide
  have hbC : (pyUpper "BBB" == "CASH") = false := by decide
  have hcC : (pyUpper "CASH" == "CASH") = true := by decide
  have hprev : prevClose [⟨0, "AAA", some 5⟩] 1 "AAA" = some 5 := by decide
  have hbm : buildMovers [⟨"AAA", some 10, false⟩] (prevClose [⟨0, "AAA", some 5⟩] 1)
      = [⟨"AAA", some 100, some 10, false⟩] := by
    norm_num [buildMovers, hprev]
  have htw : topWinners [⟨"AAA", some 10, false⟩] [⟨0, "AAA", some 5⟩] 1
      = [⟨"AAA", some 100, some 10, false⟩] := by
    rw [topWinners, if_neg (by simp), hbm]
    rfl
  have hsell : sellOrders
      [⟨"BBB", some 1, some 10, "9", some 5, 0, true, none⟩,
       ⟨"CASH", some 1000, some 1, "", some 1, 1000, false, none⟩]
      = [OrderSug.sell "BBB" 5 "9"] := by
    simp [sellOrders, hB]
  have hos : ownedSet
      [⟨"BBB", some 1, some 10, "9", some 5, 0, true, none⟩,
       ⟨"CASH", some 1000, some 1, "", some 1, 1000, false, none⟩] = ["BBB"] := by decide
  have hcv : cashVal
      [⟨"BBB", some 1, some 10, "9", some 5, 0, true, none⟩,
       ⟨"CASH", some 1000, some 1, "", some 1, 1000, false, none⟩] = 1000 := by
    norm_num [cashVal, hbC, hcC]
  have htv : totalVal
      [⟨"BBB", some 1, some 10, "9", some 5, 0, true, none⟩,
       ⟨"CASH", some 1000, some 1, "", some 1, 1000, false, none⟩] = 1000 := by
    norm_num [totalVal]
  have hall : dailyOrders []
      [⟨"BBB", some 1, some 10, "9", some 5, 0, true, none⟩,
       ⟨"CASH", some 1000, some 1, "", some 1, 1000, false, none⟩]
      [⟨"AAA", some 10, false⟩] [⟨0, "AAA", some 5⟩] 1 =
      [OrderSug.sell "BBB" 5 "9",
       OrderSug.buy "AAA" (min 10 (max 2 5)) 10 (pyRound2 (10 * (92 / 100)))] := by
    rw [dailyOrders, buyOrHold, htw, hsell, hos, hcv, htv]
    rw [if_pos ⟨rfl, by simp⟩]
    norm_num [buyLoop, buyLoop_nil, hA]
    rw [if_neg (by decide)]
    rfl
  have hm1 : OrderSug.sell "BBB" 5 "9" ∈ dailyOrders []
      [⟨"BBB", some 1, some 10, "9", some 5, 0, true, none⟩,
       ⟨"CASH", some 1000, some 1, "", some 1, 1000, false, none⟩]
      [⟨"AAA", some 10, false⟩] [⟨0, "AAA", some 5⟩] 1 := by
    rw [hall]
    exact List.mem_cons_self _ _
  have hm2 : OrderSug.buy "AAA" (min 10 (max 2 5)) 10 (pyRound2 (10 * (92 / 100))) ∈
      dailyOrders []
        [⟨"BBB", some 1, some 10, "9", some 5, 0, true, none⟩,
         ⟨"CASH", some 1000, some 1, "", some 1, 1000, false, none⟩]
        [⟨"AAA", some 10, false⟩] [⟨0, "AAA", some 5⟩] 1 := by
    rw [hall]
    exact List.mem_cons_of_mem _ (List.mem_cons_self _ _)
  exact ⟨hm1, hm2, sell_buy_disjoint _ _ _ _ _ _ _ _ _ _ _ _ hm1 hm2⟩

/-- C6: stop-loss evaluation is fail-safe. For every position whose rule
string is malformed (neither a parseable percentage nor a parseable absolute
number) or whose price or cost basis is missing, stop_hit returns false and
the stop-loss distance is undefined; no error and no synthesized trigger. -/
theorem stop_loss_fail_safe (parseFloat : String → Option ℚ) (price buy : Option ℚ)
    (sl_str : String)
    (h : price = none ∨ buy = none ∨ slMalformed parseFloat sl_str) :
    stop_hit parseFloat price buy sl_str = false ∧
      sl_distance_pct parseFloat price buy sl_str = none := by
  rcases h with h | h | h
  · subst h
    exact ⟨rfl, rfl⟩
  · subst h
    cases price <;> exact ⟨rfl, rfl⟩
  · rw [slMalformed] at h
    cases price with
    | none => exact ⟨rfl, rfl⟩
    | some pv =>
      cases buy with
      | none => exact ⟨rfl, rfl⟩
      | some bv =>
        by_cases he : pyEndsWith (pyStrip sl_str) "%" = true
        · rw [if_pos he] at h
          exact ⟨by simp [stop_hit, he, h], by simp [sl_distance_pct, he, h]⟩
        · rw [if_neg he] at h
          exact ⟨by simp [stop_hit, he, h], by simp [sl_distance_pct, he, h]⟩

/-- C6, witness: a concrete malformed rule with defined price and cost. -/
theorem stop_loss_fail_safe_witness :
    ((some 1 : Option ℚ) = none ∨ (some 1 : Option ℚ) = none ∨
      slMalformed (fun _ => none) "abc") ∧
      stop_hit (fun _ => none) (some 1) (some 1) "abc" = false ∧
      sl_distance_pct (fun _ => none) (some 1) (some 1) "abc" = none := by
  have h : slMalformed (fun _ => (none : Option ℚ)) "abc" := by
    rw [slMalformed, if_neg (by decide)]
  exact ⟨Or.inr (Or.inr h), stop_loss_fail_safe _ _ _ _ (Or.inr (Or.inr h))⟩

/-- C7, counterexample to the claim as stated: with an empty watchlist
snapshot the whole risk-flag block (movers and near-stop alike) is skipped,
so a held non-cash position one percent from its stop produces no flag. -/
theorem near_stop_flag_counterexample :
    riskFlags [] [] 0 [⟨"AAA", some 1, some 10, "10%", some 5, 5, false, some 1⟩] = [] ∧
      (⟨"AAA", some 1, some 10, "10%", some 5, 5, false, some 1⟩ : PositionRow).sl_dist_pct
        = some 1 ∧
      pyUpper "AAA" ≠ "CASH" ∧ (1 : ℚ) ≤ 3 ∧
      RiskFlag.nearStop "AAA" 1 ∉ riskFlags [] [] 0
        [⟨"AAA", some 1, some 10, "10%", some 5, 5, false, some 1⟩] := by
  refine ⟨rfl, rfl, by decide, by norm_num, ?_⟩
  rw [show riskFlags [] [] 0 [⟨"AAA", some 1, some 10, "10%", some 5, 5, false, some 1⟩]
    = [] from rfl]
  exact List.not_mem_nil _

/-- C7, amended: provided the day's watchlist snapshot is non-empty, every
held non-cash position whose stop-loss distance is at most 3 percent yields a
near-stop risk flag, for every watchlist log (independently of the mover
computation and its flags). -/
theorem near_stop_flag_when_snapshot (wl_snap : List WatchRow) (wl_log : List WatchLogRow) (asof : Int)
    (merged : List PositionRow) (r : PositionRow) (d : ℚ)
    (hsnap : wl_snap ≠ []) (hr : r ∈ merged) (hcash : pyUpper r.ticker ≠ "CASH")
    (hd : r.sl_dist_pct = some d) (hle : d ≤ 3) :
    RiskFlag.nearStop r.ticker d ∈ riskFlags wl_snap wl_log asof merged := by
  rw [riskFlags, if_neg hsnap]
  apply List.mem_append_right
  apply List.mem_filterMap.mpr
  refine ⟨r, hr, ?_⟩
  rw [if_pos hcash, hd]
  simp [hle]

/-- C7, witness: a held position one percent from its stop is flagged when
the snapshot is non-empty. -/
theorem near_stop_flag_when_snapshot_witness :
    (([⟨"W", none, false⟩] : List WatchRow) ≠ []) ∧
      (⟨"AAA", some 1, some 10, "10%", some 5, 5, false, some 1⟩ : PositionRow) ∈
        [(⟨"AAA", some 1, some 10, "10%", some 5, 5, false, some 1⟩ : PositionRow)] ∧
      pyUpper "AAA" ≠ "CASH" ∧ (1 : ℚ) ≤ 3 ∧
      RiskFlag.nearStop "AAA" 1 ∈ riskFlags [⟨"W", none, false⟩] [] 0
        [⟨"AAA", some 1, some 10, "10%", some 5, 5, false, some 1⟩] := by
  refine ⟨by simp, List.mem_cons_self _ _, by decide, by norm_num, ?_⟩
  exact near_stop_flag_when_snapshot _ _ _ _ _ _ (by simp) (List.mem_cons_self _ _) (by decide) rfl
    (by norm_num)

/-- C8, counterexample to the claim as stated: when the previous snapshot is
empty the diff block is skipped (the first-run guard), so a non-CASH ticker of
the current snapshot falls into none of the four categories. -/
theorem diff_partition_counterexample :
    pyUpper "AAA" ≠ "CASH" ∧
      "AAA" ∈ ([⟨"AAA", some 1⟩] : List SnapRow).map (fun x => x.ticker) ∧
      ((if "AAA" ∈ (holdingsDiff [⟨"AAA", some 1⟩] []).1 then 1 else 0) +
          (if "AAA" ∈ (holdingsDiff [⟨"AAA", some 1⟩] []).2.1 then 1 else 0) +
          (if "AAA" ∈ (holdingsDiff [⟨"AAA", some 1⟩] []).2.2 then 1 else 0) +
          (if "AAA" ∈ unchangedTickers [⟨"AAA", some 1⟩] [] then 1 else 0) = 0) := by
  refine ⟨by decide, by simp, ?_⟩
  rw [show holdingsDiff [⟨"AAA", some 1⟩] [] = ([], [], []) from rfl,
    show unchangedTickers [⟨"AAA", some 1⟩] [] = [] from rfl]
  simp

/-- C8, amended: for any two snapshots whose previous side is non-empty, the
categories new / closed / changed plus the implicit unchanged set partition
the non-CASH tickers of the two snapshots: each such ticker lies in exactly
one of the four. -/
theorem diff_partition (cur prev : List SnapRow) (t : String)
    (hprev : prev ≠ []) (hcash : pyUpper t ≠ "CASH")
    (hmem : t ∈ cur.map (fun x => x.ticker) ∨ t ∈ prev.map (fun x => x.ticker)) :
    (if t ∈ (holdingsDiff cur prev).1 then 1 else 0) +
        (if t ∈ (holdingsDiff cur prev).2.1 then 1 else 0) +
        (if t ∈ (holdingsDiff cur prev).2.2 then 1 else 0) +
        (if t ∈ unchangedTickers cur prev then 1 else 0) = 1 := by
  rw [holdingsDiff, unchangedTickers, if_neg hprev, if_neg hprev]
  by_cases hC : ∃ a ∈ cur, a.ticker = t
  · have hCn : ¬ ∀ x ∈ cur, ¬ x.ticker = t := by
      push_neg
      exact hC
    by_cases hP : ∃ a ∈ prev, a.ticker = t
    · have hPn : ¬ ∀ x ∈ prev, ¬ x.ticker = t := by
        push_neg
        exact hP
      by_cases hQ : qtyChanged (qtyOf prev t) (qtyOf cur t) = true
      · simp [List.mem_filter, hC, hP, hCn, hPn, hQ, hcash]
      · rw [Bool.not_eq_true] at hQ
        simp [List.mem_filter, hC, hP, hCn, hPn, hQ, hcash]
    · have hPall : ∀ x ∈ prev, ¬ x.ticker = t := by
        push_neg at hP
        exact hP
      simp [List.mem_filter, hC, hP, hCn, hPall, hcash]
  · have hCall : ∀ x ∈ cur, ¬ x.ticker = t := by
      push_neg at hC
      exact hC
    have hP : ∃ a ∈ prev, a.ticker = t := by
      rcases hmem with h | h
      · obtain ⟨a, ha, hat⟩ := List.mem_map.mp h
        exact absurd ⟨a, ha, hat⟩ hC
      · obtain ⟨a, ha, hat⟩ := List.mem_map.mp h
        exact ⟨a, ha, hat⟩
    have hPn : ¬ ∀ x ∈ prev, ¬ x.ticker = t := by
      push_neg
      exact hP
    simp [List.mem_filter, hC, hP, hCall, hPn, hcash]

/-- C8, witness: a changed ticker lies in exactly one category. -/
theorem diff_partition_witness :
    (([⟨"AAA", some 1⟩, ⟨"BBB", some 1⟩] : List SnapRow) ≠ []) ∧
      pyUpper "AAA" ≠ "CASH" ∧
      ("AAA" ∈ ([⟨"AAA", some 2⟩, ⟨"CASH", some 5⟩] : List SnapRow).map (fun x => x.ticker) ∨
        "AAA" ∈ ([⟨"AAA", some 1⟩, ⟨"BBB", some 1⟩] : List SnapRow).map (fun x => x.ticker)) ∧
      ((if "AAA" ∈ (holdingsDiff [⟨"AAA", some 2⟩, ⟨"CASH", some 5⟩]
            [⟨"AAA", some 1⟩, ⟨"BBB", some 1⟩]).1 then 1 else 0) +
        (if "AAA" ∈ (holdingsDiff [⟨"AAA", some 2⟩, ⟨"CASH", some 5⟩]
            [⟨"AAA", some 1⟩, ⟨"BBB", some 1⟩]).2.1 then 1 else 0) +
        (if "AAA" ∈ (holdingsDiff [⟨"AAA", some 2⟩, ⟨"CASH", some 5⟩]
            [⟨"AAA", some 1⟩, ⟨"BBB", some 1⟩]).2.2 then 1 else 0) +
        (if "AAA" ∈ unchangedTickers [⟨"AAA", some 2⟩, ⟨"CASH", some 5⟩]
            [⟨"AAA", some 1⟩, ⟨"BBB", some 1⟩] then 1 else 0) = 1) :=
  ⟨by simp, by decide, by simp,
    diff_partition _ _ _ (by simp) (by decide) (by simp)⟩
